import Mathlib

/-!
# Verification of the Sudoku solver (Sudoku.py / solve.py)

A shallow embedding of the repository's data model and solving engine:

* the grid store (81 optional cell values, row-major, flat index `x + 9*y`);
* the section views (rows, columns, boxes) defined by their index→coordinate
  formulas (`Sudoku9._get_index_position` of each subclass);
* the validity and completion checks (`SudokuView.validate`, `SudokuView.solved`);
* the constraint engine (`get_advancement_options`), move selection
  (`select_advancement_option`) and the worklist search (`find_solutions`);
* the error-raising paths of `Sudoku9.__getitem__`, `SudokuView.__getitem__`,
  `TupleSudokuData.__init__`, `data_from_string`, `SudokuData.__setitem__`
  and the `SudokuSquare.value` setter, with Python exceptions modelled as an
  explicit error type.

Pure values stand in for Python objects: a store is a `List (Option Nat)`, a
fallible operation returns `Except PyErr`.  A second family of definitions
(names starting with `claim...` or `spec...`) is written from the
specification's words, to be compared with the definitions taken from the
source.  A separate reference/heap model (`SearchState`, `heapStep`) makes
object identity explicit where aliasing matters.
-/

/-- A cell value: `none` is an empty cell, `some v` a placed value. -/
abbrev Cell := Option Nat

/-- A grid store: the 81 cell values in row-major order, flat index `x + 9*y`
(`MutableSudokuData._data` / the tuple underlying `TupleSudokuData`). -/
abbrev Store := List Cell

/-- A move `(x, y, value)` as produced by `get_advancement_options`. -/
abbrev Move := Nat × Nat × Nat

/-- Python exceptions that the embedded operations can raise. -/
inductive PyErr where
  | valueError
  | indexError
  | typeError
  | nameError
  deriving DecidableEq

/-- Reading a cell of the store at coordinate `(x, y)`: flat index `x + 9*y`
(`MutableSudokuData.__getitem__` / `TupleSudokuData.__getitem__`). -/
def getCell (s : Store) (x y : Nat) : Cell := s.getD (x + 9 * y) none

/-- Writing a move into a store: `current[x,y] = value`
(`MutableSudokuData.__setitem__`). -/
def applyMove (s : Store) (m : Move) : Store := s.set (m.1 + 9 * m.2.1) (some m.2.2)

/-- The module constant `square_values = frozenset(range(1,10))`, as a list. -/
def square_values : List Nat := [1, 2, 3, 4, 5, 6, 7, 8, 9]

/-- The three kinds of section views (`SudokuRow`, `SudokuColumn`, `SudokuBox`). -/
inductive SecKind where
  | row
  | col
  | box
  deriving DecidableEq

/-- A section view: its kind plus its `position` (0..8). -/
structure Sec where
  kind : SecKind
  position : Nat
  deriving DecidableEq

/-- Local index → grid coordinate, the `_get_index_position` of each section
subclass: a row maps `i ↦ (i, position)`, a column `i ↦ (position, i)`, a box
`i ↦ (position%3 * 3 + i%3, position/3 * 3 + i/3)`. -/
def getIndexPosition : Sec → Nat → Nat × Nat
  | ⟨.row, p⟩, i => (i, p)
  | ⟨.col, p⟩, i => (p, i)
  | ⟨.box, p⟩, i => (p % 3 * 3 + i % 3, p / 3 * 3 + i / 3)

/-- The nine coordinates of a section, in local-index order. -/
def sectionCells (sec : Sec) : List (Nat × Nat) :=
  (List.range 9).map (getIndexPosition sec)

/-- The nine cell values of a section (iterating `Sudoku9.__iter__`). -/
def sectionValues (s : Store) (sec : Sec) : List Cell :=
  (sectionCells sec).map (fun p => getCell s p.1 p.2)

/-- The `rows` tuple of `SudokuView`. -/
def rowsList : List Sec := (List.range 9).map (fun p => ⟨.row, p⟩)

/-- The `columns` tuple of `SudokuView`. -/
def columnsList : List Sec := (List.range 9).map (fun p => ⟨.col, p⟩)

/-- The `boxes` tuple of `SudokuView`. -/
def boxesList : List Sec := (List.range 9).map (fun p => ⟨.box, p⟩)

/-- The `sections` property of `SudokuView`: `rows + columns + boxes`. -/
def sections : List Sec := rowsList ++ columnsList ++ boxesList

/-- The 81 coordinates in the order of the `squares` tuple of `SudokuView`
(built `for y in range(9) for x in range(9)`, so row-major). -/
def allCoords : List (Nat × Nat) :=
  (List.range 9).flatMap (fun y => (List.range 9).map (fun x => (x, y)))

/-- Box index of the cell at `(x, y)`: `(x//3) + 3*(y//3)` (`SudokuSquare.box`). -/
def boxOf (x y : Nat) : Nat := x / 3 + 3 * (y / 3)

/-- The `sections` property of `SudokuSquare`: its row, column and box. -/
def squareSections (x y : Nat) : List Sec :=
  [⟨.row, y⟩, ⟨.col, x⟩, ⟨.box, boxOf x y⟩]

/-- One section's pass of `SudokuView.validate`: start from the full value set,
`remove` each non-empty cell's value, and fail (`KeyError`) when the value has
already been removed (or was never in the set). -/
def removeLoop : List Cell → List Nat → Bool
  | [], _ => true
  | none :: rest, avail => removeLoop rest avail
  | some v :: rest, avail => if v ∈ avail then removeLoop rest (avail.erase v) else false

/-- Definition `SudokuView.validate`: every section passes the duplicate check. -/
def validate (s : Store) : Bool :=
  sections.all (fun sec => removeLoop (sectionValues s sec) square_values)

/-- Definition `SudokuView.solved`: every square is non-empty and `validate`. -/
def solved (s : Store) : Bool :=
  (allCoords.all (fun p => (getCell s p.1 p.2).isSome)) && validate s

/-- The per-cell candidate set of an empty square: `possibilities` in
`get_advancement_options`, i.e. `square_values` minus every value occurring in
the square's row, column or box. -/
def cellCandidates (s : Store) (x y : Nat) : List Nat :=
  square_values.filter
    (fun v => decide (∀ sec ∈ squareSections x y, some v ∉ sectionValues s sec))

/-- The empty squares, in the iteration order of `for square in sudoku`
(the row-major `squares` tuple), filtered by `if not square`. -/
def emptyCells (s : Store) : List (Nat × Nat) :=
  allCoords.filter (fun p => decide (getCell s p.1 p.2 = none))

/-- The cell option yielded for an empty square:
`frozenset((square.x, square.y, value) for value in possibilities)`. -/
def cellOption (s : Store) (x y : Nat) : List Move :=
  (cellCandidates s x y).map (fun v => (x, y, v))

/-- The values missing from a section:
`square_values.difference(square.value for square in section)`. -/
def missingValues (s : Store) (sec : Sec) : List Nat :=
  square_values.filter (fun v => decide (some v ∉ sectionValues s sec))

/-- The section option yielded for a (section, missing value) pair: the set of
`(square.x, square.y, value)` over the empty squares of the section whose
candidate set (`square_possibilities_cache[square]`, i.e. `cellCandidates`)
contains the value. -/
def sectionOption (s : Store) (sec : Sec) (v : Nat) : List Move :=
  ((sectionCells sec).filter
      (fun p => decide (getCell s p.1 p.2 = none ∧ v ∈ cellCandidates s p.1 p.2))).map
    (fun p => (p.1, p.2, v))

/-- Definition `get_advancement_options` of solve.py: first one cell option per
empty square (in square order), then one section option per section and missing
value (sections in `rows + columns + boxes` order).  Python's `frozenset`s are
modelled as duplicate-free lists in a fixed enumeration order (Python's set
iteration order is unspecified). -/
def get_advancement_options (s : Store) : List (List Move) :=
  (emptyCells s).map (fun p => cellOption s p.1 p.2) ++
    sections.flatMap (fun sec => (missingValues s sec).map (fun v => sectionOption s sec v))

/-- The scanning loop of `select_advancement_option`: return on the first
option of size 0 or 1; otherwise keep the running shortest, replaced only when
`l < shortest_len` (so the first-seen option wins ties). -/
def selectLoop : List (List Move) → Option (Nat × List Move) → Option (Nat × List Move)
  | [], acc => acc
  | o :: rest, acc =>
    if o.length = 0 then some (o.length, o)
    else if o.length = 1 then some (o.length, o)
    else
      match acc with
      | none => selectLoop rest (some (o.length, o))
      | some (k₀, o₀) =>
        if o.length < k₀ then selectLoop rest (some (o.length, o))
        else selectLoop rest (some (k₀, o₀))

/-- Definition `select_advancement_option` of solve.py.  The Python function
returns the pair `(shortest_len, shortest)`, which is `(None, None)` when there
are no options at all; we model the pair of optionals as an optional pair. -/
def select_advancement_option (s : Store) : Option (Nat × List Move) :=
  selectLoop (get_advancement_options s) none

/-- The stores pushed by the branching case of `find_solutions`:
`split = [current] + [MutableSudokuData(current) for _ in range(option_split-1)]`
followed by `for data,(x,y,value) in zip(split, options): data[x,y] = value`.
All `option_split` stores equal the pre-move store; `zip` truncates, so a split
store beyond the end of `options` would stay unmutated. -/
def branchStores (cur : Store) (k : Nat) (opts : List Move) : List Store :=
  (List.range k).map
    (fun i => match opts[i]? with
      | some m => applyMove cur m
      | none => cur)

/-- The `while active:` loop of `find_solutions`, fuel-indexed: pop the front
store, emit it if solved (`TupleSudokuData(current)` copies the 81 values, so
at value level the snapshot equals the store), otherwise dispatch on the
selected option exactly as the `if option_split == 0 / elif == 1 / else`
chain does.  The two `none` fall-throughs model exceptions that would kill the
Python generator (`range(None - 1)` raises `TypeError`; `next(iter(()))`
raises `StopIteration`): nothing further is emitted.  A fuel of `n` produces
the solutions emitted within the first `n` loop iterations; every solution the
lazy Python generator ever yields is produced after finitely many iterations,
hence appears for every large enough fuel. -/
def findSolutionsRun : Nat → List Store → List Store
  | 0, _ => []
  | fuel + 1, active =>
    match active with
    | [] => []
    | current :: rest =>
      if solved current then current :: findSolutionsRun fuel rest
      else
        match select_advancement_option current with
        | none => []
        | some (option_split, options) =>
          if option_split = 0 then findSolutionsRun fuel rest
          else if option_split = 1 then
            match options.head? with
            | none => []
            | some m => findSolutionsRun fuel (rest ++ [applyMove current m])
          else findSolutionsRun fuel (rest ++ branchStores current option_split options)

/-- Definition `find_solutions` of solve.py: the worklist starts as
`[MutableSudokuData(start)]`, a value-copy of the input store.  The `verbose`
flag only prints and does not affect the result, so it is not modelled. -/
def find_solutions (start : Store) (fuel : Nat) : List Store :=
  findSolutionsRun fuel [start]

/-- Modelled from the spec's words (§4.4 / claim C3): scan the advancement
options; return the first option of size 0 or 1 if one exists; otherwise
return the option of smallest size, the first-seen option winning exact size
ties.  `claimSmallest` is the "smallest, first-seen wins" part: the head wins
against the best of the tail whenever its size is ≤. -/
def claimSmallest : List (List Move) → Option (Nat × List Move)
  | [] => none
  | o :: rest =>
    match claimSmallest rest with
    | none => some (o.length, o)
    | some (k, p) => if o.length ≤ k then some (o.length, o) else some (k, p)

/-- Modelled from the spec's words (§4.4 / claim C3): the selected option. -/
def claimSelect (opts : List (List Move)) : Option (Nat × List Move) :=
  match opts.find? (fun p => decide (p.length ≤ 1)) with
  | some o => some (o.length, o)
  | none => claimSmallest opts

/-- Modelled from the spec's words (§4.5 / claim C2): the state machine over a
first-in-first-out worklist.  Pop the front store; a solved store is emitted
(the snapshot equals the store at value level) and not requeued; a selected
option of size 0 discards the store; size 1 applies the single forced move and
pushes the store to the back; size k > 1 pushes exactly k stores, each the
pre-move store mutated with one of the k alternatives.  The search terminates
exactly when the worklist is empty.  The claim does not describe the case of a
store with no advancement options at all (`select` returning nothing) nor a
size-1 option without a move inside; both mirror the implementation's abort. -/
def claimRun : Nat → List Store → List Store
  | 0, _ => []
  | fuel + 1, active =>
    match active with
    | [] => []
    | current :: rest =>
      if solved current then current :: claimRun fuel rest
      else
        match select_advancement_option current with
        | none => []
        | some (k, o) =>
          if k = 0 then claimRun fuel rest
          else if k = 1 then
            match o with
            | [m] => claimRun fuel (rest ++ [applyMove current m])
            | _ => []
          else claimRun fuel (rest ++ o.map (fun m => applyMove current m))

/-- The reference/heap model of the generator state: `heap` holds the
`MutableSudokuData` objects, `worklist` is the `active` list of references
into the heap, and `emitted` the values yielded so far (each a
`TupleSudokuData`, i.e. a copy of the 81 values, not a reference). -/
structure SearchState where
  heap : List Store
  worklist : List Nat
  emitted : List Store
  deriving DecidableEq

/-- Dereference a store object. -/
def heapGet (st : SearchState) (r : Nat) : Store := st.heap.getD r []

/-- In-place mutation of the store object `r` with a move: `current[x,y]=value`.
Only the heap changes; already-emitted snapshots are plain values and cannot
be reached from the heap. -/
def storeWrite (st : SearchState) (r : Nat) (m : Move) : SearchState :=
  { st with heap := st.heap.set r (applyMove (heapGet st r) m) }

/-- The mutation loop `for data,(x,y,value) in zip(split, options)` on the
heap: mutate each referenced object with the paired move; `zip` truncates. -/
def zipMutate (heap : List Store) : List Nat → List Move → List Store
  | r :: refs, m :: ms => zipMutate (heap.set r (applyMove (heap.getD r []) m)) refs ms
  | _, _ => heap

/-- One iteration of the `while active:` loop of `find_solutions` on the
reference model.  The solved case appends a value-copy of the current store to
`emitted` (`yield TupleSudokuData(current)`).  The size-1 case mutates the
popped object in place and re-pushes the same reference — no allocation.  The
branching case allocates exactly `k-1` fresh objects initialized with copies
of the pre-move store, mutates the k objects with one alternative each, and
pushes all k references.  The two abort cases drain the worklist (the Python
generator dies with `TypeError` / `StopIteration` and emits nothing more). -/
def heapStep (st : SearchState) : SearchState :=
  match st.worklist with
  | [] => st
  | r :: rest =>
    let current := heapGet st r
    if solved current then { st with worklist := rest, emitted := st.emitted ++ [current] }
    else
      match select_advancement_option current with
      | none => { st with worklist := [] }
      | some (option_split, options) =>
        if option_split = 0 then { st with worklist := rest }
        else if option_split = 1 then
          match options.head? with
          | none => { st with worklist := [] }
          | some m => { storeWrite st r m with worklist := rest ++ [r] }
        else
          let newRefs := (List.range (option_split - 1)).map (fun i => st.heap.length + i)
          let heap1 := st.heap ++ List.replicate (option_split - 1) current
          { heap := zipMutate heap1 (r :: newRefs) options,
            worklist := rest ++ r :: newRefs,
            emitted := st.emitted }

/-- Iterating the loop on the reference model. -/
def heapRun : Nat → SearchState → SearchState
  | 0, st => st
  | fuel + 1, st => heapRun fuel (heapStep st)

/-- Definition `SudokuData.__setitem__`, inherited by `TupleSudokuData` (tuple
provides no `__setitem__`, so the abstract base's applies): it unconditionally
raises `TypeError`, so item assignment on an emitted solution fails. -/
def tupleSetitem (_t : Store) (_p : Nat × Nat) (_v : Cell) : Except PyErr Store :=
  Except.error PyErr.typeError

/-- The integer-index version of `_get_index_position`, for modelling
`Sudoku9.__getitem__` on arbitrary Python ints.  With a positive divisor,
Lean's `Int` `%` and `/` (Euclidean) agree with Python's `%` and `//`. -/
def getIndexPositionZ : Sec → Int → Int × Int
  | ⟨.row, p⟩, i => (i, (p : Int))
  | ⟨.col, p⟩, i => ((p : Int), i)
  | ⟨.box, p⟩, i => ((p : Int) % 3 * 3 + i % 3, (p : Int) / 3 * 3 + i / 3)

/-- Indexing the 81-element `squares` tuple with a Python int: a tuple raises
`IndexError` outside `[-81, 81)` and wraps negative indices; `squares[j]` is
the square view of the coordinate `(j % 9, j / 9)`, and reading its `value`
gives that cell of the store. -/
def squaresTupleGet (s : Store) (i : Int) : Except PyErr Cell :=
  if 81 ≤ i ∨ i < -81 then Except.error PyErr.indexError
  else
    let j : Nat := (if i < 0 then i + 81 else i).toNat
    Except.ok (getCell s (j % 9) (j / 9))

/-- Definition `SudokuView.__getitem__` (followed by reading the returned
square's `value`): the two bounds guards are the literal chained comparisons
`0 > x > 9` and `0 > y > 9` of the source, i.e. `0 > x and x > 9`, then
`self.squares[x + 9 * y]`. -/
def sudokuViewGetitem (s : Store) (x y : Int) : Except PyErr Cell :=
  if 0 > x ∧ x > 9 then Except.error PyErr.indexError
  else if 0 > y ∧ y > 9 then Except.error PyErr.indexError
  else squaresTupleGet s (x + 9 * y)

/-- Definition `Sudoku9.__getitem__` on an int index (followed by reading the
returned square's `value`): the guard is the literal chained comparison
`0 > index > 9`, then `self.source[self._get_index_position(index)]`. -/
def sudoku9Getitem (s : Store) (sec : Sec) (index : Int) : Except PyErr Cell :=
  if 0 > index ∧ index > 9 then Except.error PyErr.indexError
  else sudokuViewGetitem s (getIndexPositionZ sec index).1 (getIndexPositionZ sec index).2

/-- Definition `TupleSudokuData.__init__` on a materialized 81-tuple of
optional ints: rejects a length other than 81, then checks every set value
with the literal chained comparison `1 > value > 10` (i.e.
`1 > value and value > 10`).  A non-int entry would raise `TypeError`, which
the `Option Int` element type rules out. -/
def tupleSudokuDataInit (data : List (Option Int)) : Except PyErr (List (Option Int)) :=
  if data.length ≠ 81 then Except.error PyErr.valueError
  else if data.any (fun c =>
      match c with
      | none => false
      | some v => decide ((1 : Int) > v) && decide (v > 10)) then
    Except.error PyErr.valueError
  else Except.ok data

/-- Python's `str.split("\n")` on a list of characters (empty pieces kept). -/
def splitNl : List Char → List (List Char)
  | [] => [[]]
  | c :: rest =>
    match splitNl rest with
    | [] => [[]]
    | l :: ls => if c = '\n' then [] :: l :: ls else (c :: l) :: ls

/-- Python's `str.strip()` on a list of characters (ASCII whitespace; the
inputs at issue contain only `'\n'` and printable characters). -/
def pyStrip (cs : List Char) : List Char :=
  ((cs.dropWhile Char.isWhitespace).reverse.dropWhile Char.isWhitespace).reverse

/-- The `accepted_characters` set of `data_from_string`:
`set(map(str, range(10)))` — the digits 0 through 9 — plus `'-'`. -/
def acceptedCharacters : List Char := ['0', '1', '2', '3', '4', '5', '6', '7', '8', '9', '-']

/-- Definition `data_from_string` of Sudoku.py, on the character list of the
input: strip, split on newlines, check 9 lines of 9 characters over the
accepted characters, then build the store with `'-'` as empty and `int(val)`
otherwise.  The final `TupleSudokuData(...)` constructor check is
`tupleSudokuDataInit`, which (length being 81 here) accepts every value. -/
def data_from_string (source : List Char) : Except PyErr Store :=
  let lines := splitNl (pyStrip source)
  if lines.length ≠ 9 then Except.error PyErr.valueError
  else if ¬ (lines.all (fun l => l.length = 9)) then Except.error PyErr.valueError
  else
    let data := lines.flatten
    if ¬ (data.all (fun c => c ∈ acceptedCharacters)) then Except.error PyErr.valueError
    else Except.ok (data.map (fun c => if c = '-' then none else some (c.toNat - '0'.toNat)))

/-- The `SudokuSquare.value` setter: its body is `self.source.data[x, y] = value`
where `x` and `y` are plain names, not `self.x` / `self.y`; the module defines
no global `x` or `y`, so evaluating the subscript raises `NameError` before
any write to the underlying store happens. -/
def squareValueSetter (_s : Store) (_x _y : Nat) (_v : Cell) : Except PyErr Store :=
  Except.error PyErr.nameError

/-- A completed valid grid used as a concrete test vector (rows top to bottom):
123456789 / 456789123 / 789123456 / 214365897 ... see the literal. -/
def fullGrid : Store :=
  [some 1, some 2, some 3, some 4, some 5, some 6, some 7, some 8, some 9,
   some 4, some 5, some 6, some 7, some 8, some 9, some 1, some 2, some 3,
   some 7, some 8, some 9, some 1, some 2, some 3, some 4, some 5, some 6,
   some 2, some 1, some 4, some 3, some 6, some 5, some 8, some 9, some 7,
   some 3, some 6, some 5, some 8, some 9, some 7, some 2, some 1, some 4,
   some 8, some 9, some 7, some 2, some 1, some 4, some 3, some 6, some 5,
   some 5, some 3, some 1, some 6, some 4, some 2, some 9, some 7, some 8,
   some 6, some 4, some 2, some 9, some 7, some 8, some 5, some 3, some 1,
   some 9, some 7, some 8, some 5, some 3, some 1, some 6, some 4, some 2]

/-- The full grid with cell (0,0) erased: exactly one empty cell, whose only
candidate is 1 (a forced move). -/
def oneErasedGrid : Store := fullGrid.set 0 none

/-- The full grid with the rectangle (0,0), (1,0), (0,3), (1,3) erased — an
unavoidable pair {1,2}: every advancement option has size exactly 2, so the
search must branch. -/
def rectGrid : Store :=
  (((fullGrid.set 0 none).set 1 none).set 27 none).set 28 none

/-- A grid whose first empty square has no candidate: row 0 is 1..8 followed by
an empty cell, and 9 sits right below that cell. -/
def deadGrid : Store :=
  (List.replicate 81 (none : Cell)).set 0 (some 1) |>.set 1 (some 2) |>.set 2 (some 3)
    |>.set 3 (some 4) |>.set 4 (some 5) |>.set 5 (some 6) |>.set 6 (some 7)
    |>.set 7 (some 8) |>.set 17 (some 9)

/-- The duplicate-freedom relation between two cells of a section: they never
hold the same placed value. -/
def DistinctVals (a b : Cell) : Prop := ∀ v : Nat, a = some v → b ≠ some v

lemma mem_allCoords_iff (p : Nat × Nat) : p ∈ allCoords ↔ p.1 < 9 ∧ p.2 < 9 := by
  cases p with
  | mk x y =>
    simp only [allCoords, List.mem_flatMap, List.mem_map, List.mem_range]
    constructor
    · rintro ⟨y', hy', x', hx', h⟩
      cases h
      exact ⟨hx', hy'⟩
    · rintro ⟨hx, hy⟩
      exact ⟨y, hy, x, hx, rfl⟩

lemma mem_square_values_iff (v : Nat) : v ∈ square_values ↔ 1 ≤ v ∧ v ≤ 9 := by
  simp only [square_values, List.mem_cons, List.not_mem_nil, or_false]
  omega

lemma getCell_mem {s : Store} {x y v : Nat} (h : getCell s x y = some v) : some v ∈ s := by
  unfold getCell at h
  rw [List.getD_eq_getElem?_getD] at h
  cases hg : s[x + 9 * y]? with
  | none => rw [hg] at h; simp at h
  | some c =>
    rw [hg] at h
    simp only [Option.getD_some] at h
    subst h
    exact List.getElem?_mem hg

lemma solved_iff (s : Store) :
    solved s = true ↔
      ((∀ x, x < 9 → ∀ y, y < 9 → getCell s x y ≠ none) ∧ validate s = true) := by
  unfold solved
  rw [Bool.and_eq_true, List.all_eq_true]
  constructor
  · rintro ⟨hall, hv⟩
    refine ⟨fun x hx y hy => ?_, hv⟩
    have := hall (x, y) ((mem_allCoords_iff (x, y)).mpr ⟨hx, hy⟩)
    exact Option.isSome_iff_ne_none.mp this
  · rintro ⟨hall, hv⟩
    refine ⟨fun p hp => ?_, hv⟩
    have hlt := (mem_allCoords_iff p).mp hp
    exact Option.isSome_iff_ne_none.mpr (hall p.1 hlt.1 p.2 hlt.2)

lemma removeLoop_iff (cells : List Cell) :
    ∀ avail : List Nat, avail.Nodup →
      (removeLoop cells avail = true ↔
        (cells.Pairwise DistinctVals ∧ ∀ w : Nat, some w ∈ cells → w ∈ avail)) := by
  induction cells with
  | nil => intro avail _; simp [removeLoop]
  | cons c rest ih =>
    intro avail hnd
    cases c with
    | none =>
      show removeLoop rest avail = true ↔ _
      rw [ih avail hnd, List.pairwise_cons]
      constructor
      · rintro ⟨hpw, hmem⟩
        refine ⟨⟨fun b _ v hv => absurd hv (by simp), hpw⟩, ?_⟩
        intro w hw
        rcases List.mem_cons.mp hw with h | h
        · exact absurd h (by simp)
        · exact hmem w h
      · rintro ⟨⟨_, hpw⟩, hmem⟩
        exact ⟨hpw, fun w hw => hmem w (List.mem_cons_of_mem _ hw)⟩
    | some v =>
      show (if v ∈ avail then removeLoop rest (avail.erase v) else false) = true ↔ _
      by_cases hv : v ∈ avail
      · rw [if_pos hv, ih (avail.erase v) (hnd.erase v), List.pairwise_cons]
        constructor
        · rintro ⟨hpw, hmem⟩
          refine ⟨⟨fun b hb u hu hbu => ?_, hpw⟩, ?_⟩
          · have huv : some u ∈ rest := hbu ▸ hb
            have hme := hmem u huv
            rw [hnd.mem_erase_iff] at hme
            exact hme.1 (Option.some.inj hu).symm
          · intro w hw
            rcases List.mem_cons.mp hw with h | h
            · rw [Option.some.inj h]; exact hv
            · exact (hnd.mem_erase_iff.mp (hmem w h)).2
        · rintro ⟨⟨hhead, hpw⟩, hmem⟩
          refine ⟨hpw, fun w hw => hnd.mem_erase_iff.mpr ⟨?_, hmem w (List.mem_cons_of_mem _ hw)⟩⟩
          intro hwv
          exact hhead (some w) hw v rfl (by rw [hwv])
      · rw [if_neg hv]
        constructor
        · intro h
          exact Bool.noConfusion h
        · rintro ⟨_, hmem⟩
          exact absurd (hmem v (List.mem_cons_self _ _)) hv

lemma removeLoop_square_values_iff (s : Store) (sec : Sec)
    (hrange : ∀ v ∈ s, v.getD 1 ∈ square_values) :
    removeLoop (sectionValues s sec) square_values = true ↔
      (sectionValues s sec).Pairwise DistinctVals := by
  rw [removeLoop_iff _ square_values (by decide)]
  constructor
  · exact fun h => h.1
  · intro h
    refine ⟨h, fun w hw => ?_⟩
    simp only [sectionValues, sectionCells, List.mem_map] at hw
    rcases hw with ⟨p, _, hp⟩
    have := hrange (some w) (getCell_mem hp)
    simpa using this

lemma validate_iff (s : Store) (hrange : ∀ v ∈ s, v.getD 1 ∈ square_values) :
    validate s = true ↔
      ∀ sec ∈ sections, (sectionValues s sec).Pairwise DistinctVals := by
  unfold validate
  rw [List.all_eq_true]
  constructor
  · intro h sec hsec
    exact (removeLoop_square_values_iff s sec hrange).mp (h sec hsec)
  · intro h sec hsec
    exact (removeLoop_square_values_iff s sec hrange).mpr (h sec hsec)

/-- The full grid with a duplicated 1 in row 0 (cells (0,0) and (1,0)). -/
def dupGrid : Store := fullGrid.set 1 (some 1)

lemma row_mem_sections {r : Nat} (hr : r < 9) : (⟨SecKind.row, r⟩ : Sec) ∈ sections := by
  unfold sections rowsList
  exact List.mem_append.mpr (Or.inl (List.mem_append.mpr (Or.inl
    (List.mem_map.mpr ⟨r, List.mem_range.mpr hr, rfl⟩))))

lemma sectionValues_row_getElem (s : Store) (r i : Nat)
    (hi : i < (sectionValues s ⟨SecKind.row, r⟩).length) :
    (sectionValues s ⟨SecKind.row, r⟩)[i] = getCell s i r := by
  simp [sectionValues, sectionCells, getIndexPosition]

/-- Claim C5: on a grid store whose set values lie in 1..9 (the data model's
cell-value invariant), `validate` is true iff no one of the 27 sections has
two distinct non-empty cells holding the same value; `solved` is true iff
every cell is non-empty and `validate` holds; and a duplicated value in a row
forces `validate` and `solved` to be false regardless of the other cells. -/
theorem C5_validate_solved (s : Store) (hrange : ∀ v ∈ s, v.getD 1 ∈ square_values) :
    (validate s = true ↔ ∀ sec ∈ sections, (sectionValues s sec).Pairwise DistinctVals)
    ∧ (solved s = true ↔
        ((∀ x, x < 9 → ∀ y, y < 9 → getCell s x y ≠ none) ∧ validate s = true))
    ∧ (∀ r, r < 9 → ∀ i, i < 9 → ∀ j, j < 9 → i ≠ j → ∀ v : Nat,
        getCell s i r = some v → getCell s j r = some v →
        validate s = false ∧ solved s = false) := by
  refine ⟨validate_iff s hrange, solved_iff s, ?_⟩
  intro r hr i hi j hj hij v hvi hvj
  have hlen : ∀ k, k < 9 → k < (sectionValues s ⟨SecKind.row, r⟩).length := by
    intro k hk
    simpa [sectionValues, sectionCells] using hk
  have hval : validate s ≠ true := by
    intro hval
    have hpw := (validate_iff s hrange).mp hval ⟨SecKind.row, r⟩ (row_mem_sections hr)
    rw [List.pairwise_iff_getElem] at hpw
    rcases Nat.lt_or_ge i j with hlt | hge
    · have hd := hpw i j (hlen i hi) (hlen j hj) hlt
      rw [sectionValues_row_getElem s r i (hlen i hi),
        sectionValues_row_getElem s r j (hlen j hj)] at hd
      exact hd v hvi hvj
    · have hlt : j < i := by omega
      have hd := hpw j i (hlen j hj) (hlen i hi) hlt
      rw [sectionValues_row_getElem s r j (hlen j hj),
        sectionValues_row_getElem s r i (hlen i hi)] at hd
      exact hd v hvj hvi
  have hvfalse : validate s = false := by
    cases hb : validate s
    · rfl
    · exact absurd hb hval
  refine ⟨hvfalse, ?_⟩
  unfold solved
  rw [hvfalse, Bool.and_false]

/-- Witness for C5: the concrete full valid grid satisfies both directions, and
the concrete grid with a duplicated 1 in row 0 triggers the third conjunct. -/
theorem C5_witness :
    validate fullGrid = true ∧ solved fullGrid = true
    ∧ validate dupGrid = false ∧ solved dupGrid = false := by
  have h := C5_validate_solved fullGrid (by decide)
  have h2 := C5_validate_solved dupGrid (by decide)
  have hd := h2.2.2 0 (by decide) 0 (by decide) 1 (by decide) (by decide) 1 (by decide) (by decide)
  exact ⟨by decide, h.2.1.mpr ⟨by decide, by decide⟩, hd.1, hd.2⟩

lemma selectLoop_length_inv :
    ∀ (opts : List (List Move)) (acc : Option (Nat × List Move)),
      (∀ k o, acc = some (k, o) → o.length = k) →
      ∀ k o, selectLoop opts acc = some (k, o) → o.length = k := by
  intro opts
  induction opts with
  | nil => intro acc hacc k o h; exact hacc k o h
  | cons p rest ih =>
    intro acc hacc k o h
    rw [selectLoop.eq_def] at h
    dsimp only at h
    split_ifs at h with h0 h1
    · injection h with h'
      injection h' with ha hb
      rw [← hb]
      exact ha
    · injection h with h'
      injection h' with ha hb
      rw [← hb]
      exact ha
    · cases acc with
      | none =>
        dsimp only at h
        exact ih (some (p.length, p))
          (by intro k' o' h'; injection h' with h''; injection h'' with ha hb
              rw [← hb]; exact ha) k o h
      | some a =>
        rcases a with ⟨k₀, o₀⟩
        dsimp only at h
        split_ifs at h with h2
        · exact ih (some (p.length, p))
            (by intro k' o' h'; injection h' with h''; injection h'' with ha hb
                rw [← hb]; exact ha) k o h
        · exact ih (some (k₀, o₀))
            (by intro k' o' h'
                injection h' with h''
                injection h'' with ha hb
                rw [← hb, ← ha]
                exact hacc k₀ o₀ rfl) k o h

lemma select_length_inv (s : Store) :
    ∀ k o, select_advancement_option s = some (k, o) → o.length = k := by
  intro k o h
  exact selectLoop_length_inv (get_advancement_options s) none
    (by intro k' o' h'; cases h') k o h

lemma branchStores_eq (cur : Store) (o : List Move) :
    branchStores cur o.length o = o.map (fun m => applyMove cur m) := by
  apply List.ext_getElem
  · simp [branchStores]
  · intro i h1 h2
    have hi : i < o.length := by simpa using h2
    simp only [branchStores, List.getElem_map, List.getElem_range,
      List.getElem?_eq_getElem hi]

lemma run_eq_claimRun : ∀ fuel ws, findSolutionsRun fuel ws = claimRun fuel ws := by
  intro fuel
  induction fuel with
  | zero => intro ws; rfl
  | succ fuel ih =>
    intro ws
    cases ws with
    | nil => rfl
    | cons cur rest =>
      rw [findSolutionsRun, claimRun]
      by_cases hs : solved cur = true
      · rw [if_pos hs, if_pos hs, ih]
      · rw [if_neg hs, if_neg hs]
        cases hsel : select_advancement_option cur with
        | none => rfl
        | some kp =>
          rcases kp with ⟨k, o⟩
          dsimp only
          have hlen : o.length = k := select_length_inv cur k o hsel
          by_cases h0 : k = 0
          · rw [if_pos h0, if_pos h0, ih]
          · rw [if_neg h0, if_neg h0]
            by_cases h1 : k = 1
            · rw [if_pos h1, if_pos h1]
              rcases List.length_eq_one.mp (by rw [hlen, h1]) with ⟨m, rfl⟩
              simp only [List.head?, List.map_cons, List.map_nil]
              exact ih _
            · rw [if_neg h1, if_neg h1, ← hlen, branchStores_eq, ih]

lemma run_sound : ∀ fuel ws out, out ∈ findSolutionsRun fuel ws → solved out = true := by
  intro fuel
  induction fuel with
  | zero => intro ws out h; cases h
  | succ fuel ih =>
    intro ws out h
    cases ws with
    | nil => cases h
    | cons cur rest =>
      rw [findSolutionsRun] at h
      by_cases hs : solved cur = true
      · rw [if_pos hs] at h
        rcases List.mem_cons.mp h with rfl | h'
        · exact hs
        · exact ih rest out h'
      · rw [if_neg hs] at h
        cases hsel : select_advancement_option cur with
        | none => rw [hsel] at h; cases h
        | some kp =>
          rcases kp with ⟨k, o⟩
          rw [hsel] at h
          dsimp only at h
          by_cases h0 : k = 0
          · rw [if_pos h0] at h
            exact ih _ out h
          · rw [if_neg h0] at h
            by_cases h1 : k = 1
            · rw [if_pos h1] at h
              cases hh : o.head? with
              | none => rw [hh] at h; cases h
              | some m => rw [hh] at h; exact ih _ out h
            · rw [if_neg h1] at h
              exact ih _ out h

lemma zipMutate_length (refs : List Nat) :
    ∀ (heap : List Store) (ms : List Move), (zipMutate heap refs ms).length = heap.length := by
  induction refs with
  | nil => intro heap ms; cases ms <;> rfl
  | cons r refs ih =>
    intro heap ms
    cases ms with
    | nil => rfl
    | cons m ms =>
      rw [zipMutate, ih]
      exact List.length_set heap r _

/-- Claim C1: every grid emitted by `find_solutions` is a completed solution —
all 81 cells are non-empty and `validate` holds on it. -/
theorem C1_solutions_complete (start : Store) (fuel : Nat) (out : Store)
    (h : out ∈ find_solutions start fuel) :
    (∀ x, x < 9 → ∀ y, y < 9 → getCell out x y ≠ none) ∧ validate out = true :=
  (solved_iff out).mp (run_sound fuel [start] out h)

/-- Witness for C1: running the search on the one-cell-erased grid emits the
full grid, which the theorem certifies complete and valid. -/
theorem C1_witness : getCell fullGrid 0 0 ≠ none ∧ validate fullGrid = true := by
  have h := C1_solutions_complete oneErasedGrid 3 fullGrid (by decide)
  exact ⟨h.1 0 (by decide) 0 (by decide), h.2⟩

/-- Claim C2: `find_solutions` is the claimed first-in-first-out worklist state
machine.  The first conjunct is the refinement: the source-translated run
equals the run written from the claim's words (pop front; solved stores are
emitted as snapshots and not requeued; size 0 discards; size 1 applies the
forced move and pushes the store to the back; size k > 1 pushes the k stores
obtained by applying each alternative to the pre-move store; termination
exactly on empty worklist).  The second conjunct shows a selected option of
size k really has k alternatives.  The remaining conjuncts check, on the
reference model, the identity-level part of the claim: emission copies the
values out; the forced-move case re-pushes the same, in-place mutated object
and allocates nothing; the branching case pushes exactly k references, the
popped object plus exactly k−1 freshly allocated clones. -/
theorem C2_worklist_machine :
    (∀ fuel ws, findSolutionsRun fuel ws = claimRun fuel ws)
    ∧ (∀ s k o, select_advancement_option s = some (k, o) → o.length = k)
    ∧ (∀ st r rest, st.worklist = r :: rest → solved (heapGet st r) = true →
        (heapStep st).emitted = st.emitted ++ [heapGet st r] ∧ (heapStep st).worklist = rest
          ∧ (heapStep st).heap = st.heap)
    ∧ (∀ st r rest o, st.worklist = r :: rest → solved (heapGet st r) = false →
        select_advancement_option (heapGet st r) = some (0, o) →
        heapStep st = { st with worklist := rest })
    ∧ (∀ st r rest o, st.worklist = r :: rest → solved (heapGet st r) = false →
        select_advancement_option (heapGet st r) = some (1, o) →
        (heapStep st).worklist = rest ++ [r] ∧ (heapStep st).heap.length = st.heap.length)
    ∧ (∀ st r rest k o, st.worklist = r :: rest → solved (heapGet st r) = false →
        select_advancement_option (heapGet st r) = some (k, o) → 2 ≤ k →
        (heapStep st).worklist =
            rest ++ r :: (List.range (k - 1)).map (fun i => st.heap.length + i)
          ∧ (heapStep st).heap.length = st.heap.length + (k - 1)) := by
  refine ⟨run_eq_claimRun, select_length_inv, ?_, ?_, ?_, ?_⟩
  · intro st r rest hw hs
    rw [heapStep, hw]
    dsimp only
    rw [if_pos hs]
    exact ⟨rfl, rfl, rfl⟩
  · intro st r rest o hw hs hsel
    rw [heapStep, hw]
    dsimp only
    rw [if_neg (by simp [hs]), hsel]
    dsimp only
    rw [if_pos rfl]
  · intro st r rest o hw hs hsel
    have hlen : o.length = 1 := select_length_inv _ 1 o hsel
    rcases List.length_eq_one.mp hlen with ⟨m, rfl⟩
    rw [heapStep, hw]
    dsimp only
    rw [if_neg (by simp [hs]), hsel]
    dsimp only
    rw [if_neg (by decide), if_pos rfl]
    dsimp only [List.head?]
    exact ⟨rfl, List.length_set _ _ _⟩
  · intro st r rest k o hw hs hsel hk
    rw [heapStep, hw]
    dsimp only
    rw [if_neg (by simp [hs]), hsel]
    dsimp only
    rw [if_neg (by omega), if_neg (by omega)]
    refine ⟨rfl, ?_⟩
    dsimp only
    rw [zipMutate_length, List.length_append, List.length_replicate]

/-- Concrete search states exercising each step shape of the machine. -/
def solvedState : SearchState := ⟨[fullGrid], [0], []⟩

def deadState : SearchState := ⟨[deadGrid], [0], []⟩

def forcedState : SearchState := ⟨[oneErasedGrid], [0], []⟩

def branchState : SearchState := ⟨[rectGrid], [0], []⟩

/-- Witness for C2: the refinement instantiated at a concrete run, and each of
the four step shapes exercised on a concrete state. -/
theorem C2_witness :
    findSolutionsRun 3 [oneErasedGrid] = claimRun 3 [oneErasedGrid]
    ∧ ([((0 : Nat), (0 : Nat), (1 : Nat))] : List Move).length = 1
    ∧ (heapStep solvedState).emitted = [] ++ [heapGet solvedState 0]
    ∧ heapStep deadState = { deadState with worklist := [] }
    ∧ (heapStep forcedState).worklist = [] ++ [0]
    ∧ (heapStep branchState).worklist =
        [] ++ 0 :: (List.range (2 - 1)).map (fun i => branchState.heap.length + i) := by
  have h := C2_worklist_machine
  refine ⟨h.1 3 [oneErasedGrid],
    h.2.1 oneErasedGrid 1 [(0, 0, 1)] (by decide),
    (h.2.2.1 solvedState 0 [] rfl (by decide)).1,
    h.2.2.2.1 deadState 0 [] [] rfl (by decide) (by decide),
    (h.2.2.2.2.1 forcedState 0 [] [(0, 0, 1)] rfl (by decide) (by decide)).1,
    (h.2.2.2.2.2 branchState 0 [] 2 [(0, 0, 1), (0, 0, 2)] rfl (by decide) (by decide)
      (by decide)).1⟩

lemma heapStep_emitted (st : SearchState) : ∃ t, (heapStep st).emitted = st.emitted ++ t := by
  rw [heapStep]
  cases hw : st.worklist with
  | nil => exact ⟨[], by simp⟩
  | cons r rest =>
    dsimp only
    by_cases hs : solved (heapGet st r) = true
    · rw [if_pos hs]
      exact ⟨[heapGet st r], rfl⟩
    · rw [if_neg hs]
      cases hsel : select_advancement_option (heapGet st r) with
      | none => exact ⟨[], by simp⟩
      | some kp =>
        rcases kp with ⟨k, o⟩
        dsimp only
        by_cases h0 : k = 0
        · rw [if_pos h0]
          exact ⟨[], by simp⟩
        · rw [if_neg h0]
          by_cases h1 : k = 1
          · rw [if_pos h1]
            cases o.head? with
            | none => exact ⟨[], by simp⟩
            | some m => exact ⟨[], by simp [storeWrite]⟩
          · rw [if_neg h1]
            exact ⟨[], by simp⟩

lemma heapRun_emitted : ∀ (fuel : Nat) (st : SearchState),
    ∃ t, (heapRun fuel st).emitted = st.emitted ++ t := by
  intro fuel
  induction fuel with
  | zero => intro st; exact ⟨[], (List.append_nil _).symm⟩
  | succ fuel ih =>
    intro st
    rcases heapStep_emitted st with ⟨t1, h1⟩
    rcases ih (heapStep st) with ⟨t2, h2⟩
    exact ⟨t1 ++ t2, by rw [heapRun, h2, h1, List.append_assoc]⟩

/-- Claim C6: every yielded solution is an independently owned immutable
snapshot.  On the reference model: a run only ever appends to the emitted
list (the snapshot values, copied out of the heap at yield time, are never
revisited); mutating any working store object touches only the heap, never
the emitted snapshots; and item assignment on an emitted `TupleSudokuData`
raises `TypeError`. -/
theorem C6_snapshot_independence :
    (∀ fuel st, ∃ t, (heapRun fuel st).emitted = st.emitted ++ t)
    ∧ (∀ st r m, (storeWrite st r m).emitted = st.emitted)
    ∧ (∀ t p v, tupleSetitem t p v = Except.error PyErr.typeError) :=
  ⟨heapRun_emitted, fun _ _ _ => rfl, fun _ _ _ => rfl⟩

lemma selectLoop_acc_eq :
    ∀ (opts : List (List Move)) (k₀ : Nat) (o₀ : List Move), 2 ≤ k₀ →
      selectLoop opts (some (k₀, o₀)) =
        match opts.find? (fun p => decide (p.length ≤ 1)) with
        | some o => some (o.length, o)
        | none =>
          match claimSmallest opts with
          | none => some (k₀, o₀)
          | some (k, p) => if k < k₀ then some (k, p) else some (k₀, o₀) := by
  intro opts
  induction opts with
  | nil => intro k₀ o₀ _; rfl
  | cons o rest ih =>
    intro k₀ o₀ hk
    rw [selectLoop.eq_def]
    dsimp only
    have hbeta : ∀ q : List Move, (fun q : List Move => decide (q.length ≤ 1)) q =
        decide (q.length ≤ 1) := fun _ => rfl
    by_cases h01 : o.length ≤ 1
    · have hpa : (fun q : List Move => decide (q.length ≤ 1)) o = true := by
        rw [hbeta]
        exact decide_eq_true h01
      rw [List.find?_cons_of_pos rest hpa]
      by_cases h0 : o.length = 0
      · rw [if_pos h0]
      · rw [if_neg h0, if_pos (by omega)]
    · have h2 : 2 ≤ o.length := by omega
      have hne0 : ¬ o.length = 0 := by omega
      have hne1 : ¬ o.length = 1 := by omega
      have hpa : ¬ (fun q : List Move => decide (q.length ≤ 1)) o = true := by
        rw [hbeta]
        simp only [decide_eq_true_eq]
        exact h01
      rw [if_neg hne0, if_neg hne1,
        List.find?_cons_of_neg rest hpa, claimSmallest]
      by_cases hlt : o.length < k₀
      · rw [if_pos hlt, ih o.length o h2]
        cases hfind : rest.find? (fun p => decide (p.length ≤ 1)) with
        | some q => rfl
        | none =>
          dsimp only
          cases hsm : claimSmallest rest with
          | none =>
            dsimp only
            rw [if_pos hlt]
          | some kp =>
            rcases kp with ⟨k, p⟩
            dsimp only
            by_cases hok : o.length ≤ k
            · have hnk : ¬ k < o.length := by omega
              rw [if_neg hnk, if_pos hok]
              dsimp only
              rw [if_pos hlt]
            · have hklt : k < o.length := by omega
              rw [if_pos hklt, if_neg hok]
              dsimp only
              rw [if_pos (by omega : k < k₀)]
      · rw [if_neg hlt, ih k₀ o₀ hk]
        cases hfind : rest.find? (fun p => decide (p.length ≤ 1)) with
        | some q => rfl
        | none =>
          dsimp only
          cases hsm : claimSmallest rest with
          | none =>
            dsimp only
            rw [if_neg hlt]
          | some kp =>
            rcases kp with ⟨k, p⟩
            dsimp only
            by_cases hok : o.length ≤ k
            · have hnk : ¬ k < k₀ := by omega
              rw [if_neg hnk, if_pos hok]
              dsimp only
              rw [if_neg hlt]
            · rw [if_neg hok]

lemma selectLoop_none_eq (opts : List (List Move)) :
    selectLoop opts none = claimSelect opts := by
  cases opts with
  | nil => rfl
  | cons o rest =>
    rw [selectLoop.eq_def, claimSelect]
    dsimp only
    have hbeta : ∀ q : List Move, (fun q : List Move => decide (q.length ≤ 1)) q =
        decide (q.length ≤ 1) := fun _ => rfl
    by_cases h01 : o.length ≤ 1
    · have hpa : (fun q : List Move => decide (q.length ≤ 1)) o = true := by
        rw [hbeta]
        exact decide_eq_true h01
      rw [List.find?_cons_of_pos rest hpa]
      by_cases h0 : o.length = 0
      · rw [if_pos h0]
      · rw [if_neg h0, if_pos (by omega)]
    · have h2 : 2 ≤ o.length := by omega
      have hne0 : ¬ o.length = 0 := by omega
      have hne1 : ¬ o.length = 1 := by omega
      have hpa : ¬ (fun q : List Move => decide (q.length ≤ 1)) o = true := by
        rw [hbeta]
        simp only [decide_eq_true_eq]
        exact h01
      rw [if_neg hne0, if_neg hne1, List.find?_cons_of_neg rest hpa, claimSmallest]
      rw [selectLoop_acc_eq rest o.length o h2]
      cases hfind : rest.find? (fun p => decide (p.length ≤ 1)) with
      | some q => rfl
      | none =>
        dsimp only
        cases hsm : claimSmallest rest with
        | none => rfl
        | some kp =>
          rcases kp with ⟨k, p⟩
          dsimp only
          by_cases hok : o.length ≤ k
          · have hnk : ¬ k < o.length := by omega
            rw [if_neg hnk, if_pos hok]
          · have hklt : k < o.length := by omega
            rw [if_pos hklt, if_neg hok]

lemma selectLoop_shortcircuit :
    ∀ (l₁ : List (List Move)) (o : List Move) (l₂ : List (List Move))
      (acc : Option (Nat × List Move)),
      (∀ p ∈ l₁, 2 ≤ p.length) → o.length ≤ 1 →
      selectLoop (l₁ ++ o :: l₂) acc = some (o.length, o) := by
  intro l₁
  induction l₁ with
  | nil =>
    intro o l₂ acc _ ho
    rw [List.nil_append, selectLoop.eq_def]
    dsimp only
    by_cases h0 : o.length = 0
    · rw [if_pos h0]
    · rw [if_neg h0, if_pos (by omega)]
  | cons p l₁ ih =>
    intro o l₂ acc hl₁ ho
    have hp : 2 ≤ p.length := hl₁ p (List.mem_cons_self _ _)
    have hrest : ∀ q ∈ l₁, 2 ≤ q.length := fun q hq => hl₁ q (List.mem_cons_of_mem _ hq)
    rw [List.cons_append, selectLoop.eq_def]
    dsimp only
    rw [if_neg (by omega : ¬ p.length = 0), if_neg (by omega : ¬ p.length = 1)]
    cases acc with
    | none =>
      dsimp only
      exact ih o l₂ _ hrest ho
    | some a =>
      rcases a with ⟨k₀, o₀⟩
      dsimp only
      by_cases hlt : p.length < k₀
      · rw [if_pos hlt]
        exact ih o l₂ _ hrest ho
      · rw [if_neg hlt]
        exact ih o l₂ _ hrest ho

/-- Claim C3: `select_advancement_option` scans the options in the enumeration
order of `get_advancement_options`; it equals the selection the claim
describes (first option of size 0 or 1 if any, otherwise the smallest with
the first-seen option winning exact ties — `claimSelect`); and on the first
option of size ≤ 1 it returns immediately, independently of everything that
follows it in the enumeration. -/
theorem C3_selection (s : Store) :
    select_advancement_option s = claimSelect (get_advancement_options s)
    ∧ (∀ l₁ o l₂ l₂', get_advancement_options s = l₁ ++ o :: l₂ →
        (∀ p ∈ l₁, 2 ≤ p.length) → o.length ≤ 1 →
        selectLoop (l₁ ++ o :: l₂') none = some (o.length, o)) := by
  refine ⟨selectLoop_none_eq _, ?_⟩
  intro l₁ o l₂ l₂' _ h1 h2
  exact selectLoop_shortcircuit l₁ o l₂' none h1 h2

/-- Witness for C3 at the one-cell-erased grid: its option enumeration starts
with the forced cell option, and the short-circuit fires on it. -/
theorem C3_witness :
    select_advancement_option oneErasedGrid = claimSelect (get_advancement_options oneErasedGrid)
    ∧ selectLoop ([] ++ [((0 : Nat), (0 : Nat), (1 : Nat))] :: []) none =
        some (1, [(0, 0, 1)]) := by
  have h := C3_selection oneErasedGrid
  refine ⟨h.1, ?_⟩
  exact h.2 [] [(0, 0, 1)] [[(0, 0, 1)], [(0, 0, 1)], [(0, 0, 1)]] [] (by decide)
    (by decide) (by decide)

/-- Modelled from the spec's words (§4.3, claim C4): value `v` is already
present in the cell's row, column, or box — some cell of the same row, the
same column, or the same 3×3 block holds `v`. -/
def specPresent (s : Store) (x y v : Nat) : Prop :=
  (∃ a, a < 9 ∧ getCell s a y = some v)
  ∨ (∃ b, b < 9 ∧ getCell s x b = some v)
  ∨ (∃ a b, a < 9 ∧ b < 9 ∧ a / 3 = x / 3 ∧ b / 3 = y / 3 ∧ getCell s a b = some v)

/-- Modelled from the spec's words (§3, claim C4): the cells a section covers.
Row r covers y = r, x = 0..8; column c covers x = c, y = 0..8; box b covers
x in [3*(b%3), 3*(b%3)+3) and y in [3*(b/3), 3*(b/3)+3). -/
def specCovers : Sec → Nat → Nat → Prop
  | ⟨.row, r⟩, x, y => y = r ∧ x < 9
  | ⟨.col, c⟩, x, y => x = c ∧ y < 9
  | ⟨.box, b⟩, x, y =>
      3 * (b % 3) ≤ x ∧ x < 3 * (b % 3) + 3 ∧ 3 * (b / 3) ≤ y ∧ y < 3 * (b / 3) + 3

lemma covers_iff (sec : Sec) (x y : Nat) :
    specCovers sec x y ↔ ∃ i, i < 9 ∧ getIndexPosition sec i = (x, y) := by
  rcases sec with ⟨k, p⟩
  cases k with
  | row =>
    constructor
    · rintro ⟨rfl, hx⟩
      exact ⟨x, hx, rfl⟩
    · rintro ⟨i, hi, heq⟩
      simp only [getIndexPosition, Prod.mk.injEq] at heq
      exact ⟨heq.2.symm, heq.1 ▸ hi⟩
  | col =>
    constructor
    · rintro ⟨rfl, hy⟩
      exact ⟨y, hy, rfl⟩
    · rintro ⟨i, hi, heq⟩
      simp only [getIndexPosition, Prod.mk.injEq] at heq
      exact ⟨heq.1.symm, heq.2 ▸ hi⟩
  | box =>
    constructor
    · rintro ⟨h1, h2, h3, h4⟩
      refine ⟨(x - 3 * (p % 3)) + 3 * (y - 3 * (p / 3)), by omega, ?_⟩
      simp only [getIndexPosition, Prod.mk.injEq]
      constructor <;> omega
    · rintro ⟨i, hi, heq⟩
      simp only [getIndexPosition, Prod.mk.injEq] at heq
      constructor
      · omega
      · refine ⟨by omega, by omega, by omega⟩

lemma sections_position_lt : ∀ sec ∈ sections, sec.position < 9 := by decide

lemma specCovers_lt (sec : Sec) (hpos : sec.position < 9) (x y : Nat)
    (h : specCovers sec x y) : x < 9 ∧ y < 9 := by
  rcases sec with ⟨k, p⟩
  cases k with
  | row => rcases h with ⟨rfl, hx⟩; exact ⟨hx, hpos⟩
  | col => rcases h with ⟨rfl, hy⟩; exact ⟨hpos, hy⟩
  | box =>
    rcases h with ⟨h1, h2, h3, h4⟩
    have hp9 : p < 9 := hpos
    omega

lemma mem_sectionValues_iff (s : Store) (sec : Sec) (v : Nat) :
    some v ∈ sectionValues s sec ↔ ∃ x y, specCovers sec x y ∧ getCell s x y = some v := by
  constructor
  · intro h
    rcases List.mem_map.mp h with ⟨p, hp, hv⟩
    rw [sectionCells] at hp
    rcases List.mem_map.mp hp with ⟨i, hi, hip⟩
    exact ⟨p.1, p.2, (covers_iff sec p.1 p.2).mpr ⟨i, List.mem_range.mp hi, by rw [hip]⟩, hv⟩
  · rintro ⟨x, y, hcov, hv⟩
    rcases (covers_iff sec x y).mp hcov with ⟨i, hi, hip⟩
    refine List.mem_map.mpr ⟨(x, y), ?_, hv⟩
    rw [sectionCells]
    exact List.mem_map.mpr ⟨i, List.mem_range.mpr hi, hip⟩

lemma boxOf_mod (x y : Nat) (hx : x < 9) : boxOf x y % 3 = x / 3 := by
  unfold boxOf
  omega

lemma boxOf_div (x y : Nat) (hx : x < 9) : boxOf x y / 3 = y / 3 := by
  unfold boxOf
  omega

lemma cellCandidates_iff (s : Store) (x y v : Nat) (hx : x < 9) (hy : y < 9) :
    v ∈ cellCandidates s x y ↔ (1 ≤ v ∧ v ≤ 9 ∧ ¬ specPresent s x y v) := by
  unfold cellCandidates
  rw [List.mem_filter, decide_eq_true_eq, mem_square_values_iff]
  have hrow : (some v ∈ sectionValues s ⟨SecKind.row, y⟩) ↔
      ∃ a, a < 9 ∧ getCell s a y = some v := by
    rw [mem_sectionValues_iff]
    constructor
    · rintro ⟨a, b, ⟨rfl, ha⟩, hv⟩
      exact ⟨a, ha, hv⟩
    · rintro ⟨a, ha, hv⟩
      exact ⟨a, y, ⟨rfl, ha⟩, hv⟩
  have hcol : (some v ∈ sectionValues s ⟨SecKind.col, x⟩) ↔
      ∃ b, b < 9 ∧ getCell s x b = some v := by
    rw [mem_sectionValues_iff]
    constructor
    · rintro ⟨a, b, ⟨rfl, hb⟩, hv⟩
      exact ⟨b, hb, hv⟩
    · rintro ⟨b, hb, hv⟩
      exact ⟨x, b, ⟨rfl, hb⟩, hv⟩
  have hbox : (some v ∈ sectionValues s ⟨SecKind.box, boxOf x y⟩) ↔
      ∃ a b, a < 9 ∧ b < 9 ∧ a / 3 = x / 3 ∧ b / 3 = y / 3 ∧ getCell s a b = some v := by
    rw [mem_sectionValues_iff]
    constructor
    · rintro ⟨a, b, ⟨h1, h2, h3, h4⟩, hv⟩
      rw [boxOf_mod x y hx] at h1 h2
      rw [boxOf_div x y hx] at h3 h4
      exact ⟨a, b, by omega, by omega, by omega, by omega, hv⟩
    · rintro ⟨a, b, ha, hb, hda, hdb, hv⟩
      refine ⟨a, b, ?_, hv⟩
      refine ⟨?_, ?_, ?_, ?_⟩ <;>
        first
          | (rw [boxOf_mod x y hx]; omega)
          | (rw [boxOf_div x y hx]; omega)
  have hsplit : (∀ sec ∈ squareSections x y, some v ∉ sectionValues s sec) ↔
      (some v ∉ sectionValues s ⟨SecKind.row, y⟩ ∧ some v ∉ sectionValues s ⟨SecKind.col, x⟩ ∧
        some v ∉ sectionValues s ⟨SecKind.box, boxOf x y⟩) := by
    rw [squareSections]
    rw [List.forall_mem_cons, List.forall_mem_cons, List.forall_mem_cons]
    simp only [List.not_mem_nil, false_implies, implies_true, and_true]
  rw [hsplit]
  unfold specPresent
  constructor
  · rintro ⟨⟨h1, h9⟩, hr, hc, hb⟩
    refine ⟨h1, h9, ?_⟩
    rintro (h | h | h)
    · exact hr (hrow.mpr h)
    · exact hc (hcol.mpr h)
    · exact hb (hbox.mpr h)
  · rintro ⟨h1, h9, hnp⟩
    refine ⟨⟨h1, h9⟩, ?_, ?_, ?_⟩
    · intro hmem
      exact hnp (Or.inl (hrow.mp hmem))
    · intro hmem
      exact hnp (Or.inr (Or.inl (hcol.mp hmem)))
    · intro hmem
      exact hnp (Or.inr (Or.inr (hbox.mp hmem)))

lemma emptyCells_mem_iff (s : Store) (x y : Nat) :
    (x, y) ∈ emptyCells s ↔ (x < 9 ∧ y < 9 ∧ getCell s x y = none) := by
  unfold emptyCells
  rw [List.mem_filter, decide_eq_true_eq]
  rw [mem_allCoords_iff]
  tauto

lemma missingValues_mem_iff (s : Store) (sec : Sec) (v : Nat) :
    v ∈ missingValues s sec ↔
      (1 ≤ v ∧ v ≤ 9 ∧ ¬ ∃ x y, specCovers sec x y ∧ getCell s x y = some v) := by
  unfold missingValues
  rw [List.mem_filter, decide_eq_true_eq, mem_square_values_iff, mem_sectionValues_iff]
  tauto

lemma cellOption_mem_iff (s : Store) (x y : Nat) (hx : x < 9) (hy : y < 9) (m : Move) :
    m ∈ cellOption s x y ↔
      ∃ v, m = (x, y, v) ∧ 1 ≤ v ∧ v ≤ 9 ∧ ¬ specPresent s x y v := by
  unfold cellOption
  rw [List.mem_map]
  constructor
  · rintro ⟨v, hv, rfl⟩
    rcases (cellCandidates_iff s x y v hx hy).mp hv with ⟨h1, h9, hnp⟩
    exact ⟨v, rfl, h1, h9, hnp⟩
  · rintro ⟨v, rfl, h1, h9, hnp⟩
    exact ⟨v, (cellCandidates_iff s x y v hx hy).mpr ⟨h1, h9, hnp⟩, rfl⟩

lemma sectionOption_mem_iff (s : Store) (sec : Sec) (v : Nat) (m : Move) :
    m ∈ sectionOption s sec v ↔
      ∃ x y, m = (x, y, v) ∧ specCovers sec x y ∧ getCell s x y = none ∧
        v ∈ cellCandidates s x y := by
  unfold sectionOption
  rw [List.mem_map]
  constructor
  · rintro ⟨p, hp, rfl⟩
    rw [List.mem_filter, decide_eq_true_eq] at hp
    rcases hp with ⟨hpmem, hempty, hcand⟩
    rw [sectionCells] at hpmem
    rcases List.mem_map.mp hpmem with ⟨i, hi, hip⟩
    refine ⟨p.1, p.2, rfl, ?_, hempty, hcand⟩
    exact (covers_iff sec p.1 p.2).mpr ⟨i, List.mem_range.mp hi, by rw [hip]⟩
  · rintro ⟨x, y, rfl, hcov, hempty, hcand⟩
    refine ⟨(x, y), ?_, rfl⟩
    rw [List.mem_filter, decide_eq_true_eq]
    rcases (covers_iff sec x y).mp hcov with ⟨i, hi, hip⟩
    refine ⟨?_, hempty, hcand⟩
    rw [sectionCells]
    exact List.mem_map.mpr ⟨i, List.mem_range.mpr hi, hip⟩

/-- Claim C4: `get_advancement_options` yields first one cell option per empty
cell — the set of (that cell's coordinate, v) over the values v in 1..9 not
present in the cell's row, column, or box — and then, for every section and
every value 1..9 not placed anywhere in that section, one section option — the
set of (c, v) over the empty cells c the section covers whose candidate set
contains v.  The first conjunct is the cell-then-section enumeration shape,
the others characterize each enumerated item against the spec-worded
predicates (`specPresent`, `specCovers`). -/
theorem C4_options_characterization (s : Store) :
    (get_advancement_options s =
      (emptyCells s).map (fun p => cellOption s p.1 p.2) ++
        sections.flatMap (fun sec => (missingValues s sec).map (fun v => sectionOption s sec v)))
    ∧ (∀ x y, (x, y) ∈ emptyCells s ↔ (x < 9 ∧ y < 9 ∧ getCell s x y = none))
    ∧ (∀ x y m, x < 9 → y < 9 →
        (m ∈ cellOption s x y ↔
          ∃ v, m = (x, y, v) ∧ 1 ≤ v ∧ v ≤ 9 ∧ ¬ specPresent s x y v))
    ∧ (∀ sec ∈ sections, ∀ v,
        (v ∈ missingValues s sec ↔
          (1 ≤ v ∧ v ≤ 9 ∧ ¬ ∃ x y, specCovers sec x y ∧ getCell s x y = some v)))
    ∧ (∀ sec ∈ sections, ∀ v m,
        (m ∈ sectionOption s sec v ↔
          ∃ x y, m = (x, y, v) ∧ specCovers sec x y ∧ getCell s x y = none ∧
            1 ≤ v ∧ v ≤ 9 ∧ ¬ specPresent s x y v)) := by
  refine ⟨rfl, emptyCells_mem_iff s, fun x y m hx hy => cellOption_mem_iff s x y hx hy m,
    fun sec _ v => missingValues_mem_iff s sec v, ?_⟩
  intro sec hsec v m
  rw [sectionOption_mem_iff]
  constructor
  · rintro ⟨x, y, rfl, hcov, hemp, hcand⟩
    have hb := specCovers_lt sec (sections_position_lt sec hsec) x y hcov
    rcases (cellCandidates_iff s x y v hb.1 hb.2).mp hcand with ⟨h1, h9, hnp⟩
    exact ⟨x, y, rfl, hcov, hemp, h1, h9, hnp⟩
  · rintro ⟨x, y, rfl, hcov, hemp, h1, h9, hnp⟩
    have hb := specCovers_lt sec (sections_position_lt sec hsec) x y hcov
    exact ⟨x, y, rfl, hcov, hemp, (cellCandidates_iff s x y v hb.1 hb.2).mpr ⟨h1, h9, hnp⟩⟩

/-- Witness for C4 at the rectangle grid: the empty cell (0,0), its candidate
1, the missing value 1 of row 0, and the corresponding section-option move,
each certified through the theorem with its hypotheses discharged. -/
theorem C4_witness :
    (0 < 9 ∧ 0 < 9 ∧ getCell rectGrid 0 0 = none)
    ∧ ((0, 0, 1) : Move) ∈ cellOption rectGrid 0 0
    ∧ (1 : Nat) ∈ missingValues rectGrid ⟨SecKind.row, 0⟩
    ∧ ((0, 0, 1) : Move) ∈ sectionOption rectGrid ⟨SecKind.row, 0⟩ 1 := by
  have h := C4_options_characterization rectGrid
  have hnp : ¬ specPresent rectGrid 0 0 1 := by
    rintro (⟨a, ha, hv⟩ | ⟨b, hb, hv⟩ | ⟨a, b, ha, hb, hda, hdb, hv⟩)
    · interval_cases a <;> exact absurd hv (by decide)
    · interval_cases b <;> exact absurd hv (by decide)
    · have ha3 : a < 3 := by omega
      have hb3 : b < 3 := by omega
      interval_cases a <;> interval_cases b <;> exact absurd hv (by decide)
  have hrow0 : ¬ ∃ x y, specCovers ⟨SecKind.row, 0⟩ x y ∧ getCell rectGrid x y = some 1 := by
    rintro ⟨x, y, ⟨rfl, hx⟩, hv⟩
    interval_cases x <;> exact absurd hv (by decide)
  refine ⟨(h.2.1 0 0).mp (by decide), ?_, ?_, ?_⟩
  · exact (h.2.2.1 0 0 (0, 0, 1) (by decide) (by decide)).mpr ⟨1, rfl, by decide, by decide, hnp⟩
  · exact (h.2.2.2.1 ⟨SecKind.row, 0⟩ (by decide) 1).mpr ⟨by decide, by decide, hrow0⟩
  · exact (h.2.2.2.2 ⟨SecKind.row, 0⟩ (by decide) 1 (0, 0, 1)).mpr
      ⟨0, 0, rfl, ⟨rfl, by decide⟩, by decide, by decide, by decide, hnp⟩

/-- Claim C7 failing inputs: the bounds guards of `Sudoku9.__getitem__` and
`SudokuView.__getitem__` are the chained comparisons `0 > i > 9`, which no
integer satisfies, so no range error is raised.  Indexing row 0 of the full
grid with local index 9 silently returns the cell at (0,1) (value 4); the
grid-view lookup at (10, 0) silently returns the cell at (1,1) (value 5); and
row 0 at local index -1 wraps around to the cell at (8,8) (value 2). -/
theorem C7_no_range_error :
    sudoku9Getitem fullGrid ⟨SecKind.row, 0⟩ 9 = Except.ok (some 4)
    ∧ sudokuViewGetitem fullGrid 10 0 = Except.ok (some 5)
    ∧ sudoku9Getitem fullGrid ⟨SecKind.row, 0⟩ (-1) = Except.ok (some 2) :=
  ⟨rfl, rfl, rfl⟩

/-- Claim C8 failing inputs: `TupleSudokuData.__init__` checks set values with
the chained comparison `1 > value > 10`, which no integer satisfies, so an
81-element sequence holding the out-of-range values 0 or 42 (or -5) is
accepted without a ValueError. -/
theorem C8_no_value_error :
    tupleSudokuDataInit (some 0 :: List.replicate 80 none) =
        Except.ok (some 0 :: List.replicate 80 none)
    ∧ tupleSudokuDataInit (some 42 :: List.replicate 80 none) =
        Except.ok (some 42 :: List.replicate 80 none)
    ∧ tupleSudokuDataInit (some (-5) :: List.replicate 80 none) =
        Except.ok (some (-5) :: List.replicate 80 none) :=
  ⟨rfl, rfl, rfl⟩

/-- Nine lines of nine `'0'` characters — shape-wise a well-formed puzzle text,
but `'0'` is not one of the 10 symbols the spec admits. -/
def zerosPuzzleText : List Char :=
  ((List.replicate 8 (List.replicate 9 '0' ++ ['\n'])).flatten) ++ List.replicate 9 '0'

/-- A well-formed puzzle line repeated nine times, with a `'-'` placeholder. -/
def dashPuzzleText : List Char :=
  ((List.replicate 8 (('1' :: '2' :: '3' :: '4' :: '-' :: '6' :: '7' :: '8' :: ['9']) ++ ['\n'])).flatten)
    ++ ('1' :: '2' :: '3' :: '4' :: '-' :: '6' :: '7' :: '8' :: ['9'])

/-- Claim C9 failing input: `accepted_characters` is built from `range(10)`,
so the digit `'0'` is accepted as an 11th symbol: nine lines of nine `'0'`
characters parse into a store of 81 zeros instead of raising the input error
the claim requires.  The well-shaped inputs otherwise behave as claimed:
a 9×9 text over digits and `'-'` decodes with `'-'` as empty, and a
wrong-shaped text is rejected. -/
theorem C9_zero_accepted :
    data_from_string zerosPuzzleText = Except.ok (List.replicate 81 (some 0))
    ∧ data_from_string dashPuzzleText =
        Except.ok ((List.replicate 8
            ([some 1, some 2, some 3, some 4, none, some 6, some 7, some 8, some 9] : Store)).flatten
          ++ [some 1, some 2, some 3, some 4, none, some 6, some 7, some 8, some 9])
    ∧ data_from_string ['1'] = Except.error PyErr.valueError :=
  ⟨rfl, by rfl, rfl⟩

/-- Claim C10: the `SudokuSquare.value` setter always raises `NameError` — its
body references the unbound names `x` and `y` — so writing through the square
view never succeeds and never modifies the underlying store. -/
theorem C10_setter_name_error (s : Store) (x y : Nat) (v : Cell) :
    squareValueSetter s x y v = Except.error PyErr.nameError := rfl
